import Mathlib

/-!
Verification of the mbed HAL sources for the Analog Devices targets:
`gpio_irq_api.c` (ADuCM3029 GPIO interrupt demultiplexer and channel
registry) and `lp_ticker_api.c` (ADuCM4050 low-power ticker).  The C
code is embedded shallowly: the static arrays and globals become an
explicit state record, the vendor driver register accesses become
field updates of that record, and the interrupt-side callbacks are
modelled as functions returning the list of observable invocations.
-/

/-- The `gpio_irq_event` enumeration of the mbed HAL
(`IRQ_NONE`, `IRQ_RISE`, `IRQ_FALL`). -/
inductive gpio_irq_event where
  | IRQ_NONE
  | IRQ_RISE
  | IRQ_FALL
  deriving DecidableEq

/-- One entry of the `channel_ids` table: caller id, configured edge and
the interrupt-enable flag (a `uint8_t` holding 0 or 1 in the source). -/
structure gpio_chan_info_t where
  id : Nat
  event : gpio_irq_event
  int_enable : Nat
  deriving DecidableEq

/-- The `gpio_irq_t` object: the source stores the caller id and the pin
name in it (`obj->id`, `obj->pinname`). -/
structure gpio_irq_t where
  id : Nat
  pinname : Nat
  deriving DecidableEq

/-- The two hardware group-interrupt lines `SYS_GPIO_INTA_IRQn` and
`SYS_GPIO_INTB_IRQn`. -/
inductive IrqLine where
  | INTA
  | INTB
  deriving DecidableEq

def MAX_GPIO_LINES : Nat := 16

def MAX_GPIO_PORTS : Nat := 3

/-- The mbed no-pin sentinel `NC`; its value `(int)0xFFFFFFFF` comes from
the pin-name header, which is outside the three source files.  None of
the claims depends on the numeric value, only on `NC` being one fixed
sentinel. -/
def NC : Nat := 0xFFFFFFFF

/-- Pin names encode `(port << GPIO_PORT_SHIFT) | pin_number`.  The shift
constant lives in the external pin-name header; the claims are stated in
terms of the decoded pair, so the value is immaterial. -/
def GPIO_PORT_SHIFT : Nat := 12

/-- The mutable state of `gpio_irq_api.c`: the static `channel_ids`
table, the process-wide `irq_handler` pointer (0 for `NULL`), the
`gpio_initialized` flag, and the per-port registers touched through the
vendor driver (polarity, the IENA/IENB group-interrupt enables and the
input-enable register), plus the callback registrations on the two
group-interrupt lines. -/
structure GpioState where
  channel_ids : Nat → Nat → gpio_chan_info_t
  irq_handler : Nat
  gpio_initialized : Bool
  polarity : Nat → Nat
  ienA : Nat → Nat
  ienB : Nat → Nat
  inputEn : Nat → Nat
  cbA : Option gpio_irq_t
  cbB : Option gpio_irq_t

/-- Pointwise update of a per-port register file. -/
def updFun (f : Nat → Nat) (p v : Nat) : Nat → Nat :=
  fun x => if x = p then v else f x

/-- Update of the channel table at one (port, line) slot. -/
def updTable (f : Nat → Nat → gpio_chan_info_t) (p l : Nat) (v : gpio_chan_info_t) :
    Nat → Nat → gpio_chan_info_t :=
  fun a b => if a = p ∧ b = l then v else f a b

/-- `reg |= (1 << pin)` on a 16-bit register. -/
def setBit16 (v i : Nat) : Nat := v ||| (1 <<< i)

/-- `reg &= ~(1 << pin)` on a 16-bit register. -/
def clearBit16 (v i : Nat) : Nat := v &&& (65535 ^^^ (1 <<< i))

/-- `disable_pin_interrupt`: read-modify-write clearing the pin bit in
both the IENA and the IENB register of the port. -/
def disable_pin_interrupt (s : GpioState) (port pin_number : Nat) : GpioState :=
  { s with
    ienA := updFun s.ienA port (clearBit16 (s.ienA port) pin_number),
    ienB := updFun s.ienB port (clearBit16 (s.ienB port) pin_number) }

/-- `enable_pin_interrupt`: read-modify-write setting the pin bit in the
register selected by `eIrq`. -/
def enable_pin_interrupt (s : GpioState) (port pin_number : Nat) (eIrq : IrqLine) : GpioState :=
  match eIrq with
  | .INTA => { s with ienA := updFun s.ienA port (setBit16 (s.ienA port) pin_number) }
  | .INTB => { s with ienB := updFun s.ienB port (setBit16 (s.ienB port) pin_number) }

/-- The scan loop inside `gpio_irq_callback`: while the remaining mask is
nonzero, dispatch on the low bit (only when the process-wide handler is
non-null), advance the bit-position index and shift the mask right. -/
def gpio_irq_scan (s : GpioState) (event : Nat) (pin index : Nat) :
    List (Nat × gpio_irq_event) :=
  if h : pin = 0 then []
  else
    (if pin % 2 = 1 ∧ s.irq_handler ≠ 0 then
      [((s.channel_ids event index).id, (s.channel_ids event index).event)]
    else [])
    ++ gpio_irq_scan s event (pin >>> 1) (index + 1)
termination_by pin
decreasing_by
  rw [Nat.shiftRight_eq_div_pow]
  exact Nat.div_lt_self (Nat.pos_of_ne_zero h) (by norm_num)

/-- `gpio_irq_callback (pCBParam, Event, pArg)`: `Event` is the port
number of the GPIO line and `pin` the 16-bit mask read from `pArg`; the
result is the list of `(id, event)` payloads passed to `irq_handler`, in
invocation order. -/
def gpio_irq_callback (s : GpioState) (event : Nat) (pin : Nat) :
    List (Nat × gpio_irq_event) :=
  gpio_irq_scan s event pin 0

/-- Number of iterations the `while (pin)` scan loop executes for a given
starting mask. -/
def gpio_irq_scan_iters (pin : Nat) : Nat :=
  if h : pin = 0 then 0 else gpio_irq_scan_iters (pin >>> 1) + 1
termination_by pin
decreasing_by
  rw [Nat.shiftRight_eq_div_pow]
  exact Nat.div_lt_self (Nat.pos_of_ne_zero h) (by norm_num)

/-- `gpio_irq_init`: validity check, lazy driver bring-up, conditional
save of the process-wide handler, masking of the pin on both lines,
input-enable, and the fresh channel entry.  Returns the status together
with the new state and the (possibly updated) object. -/
def gpio_irq_init (s : GpioState) (obj : gpio_irq_t) (pin handler idArg : Nat) :
    Int × GpioState × gpio_irq_t :=
  if pin = NC ∨ idArg = 0 then (-1, s, obj)
  else
    let port := pin >>> GPIO_PORT_SHIFT
    let pin_num := pin &&& 0xFF
    let s1 := if s.gpio_initialized then s else { s with gpio_initialized := true }
    let s2 := if handler ≠ 0 then { s1 with irq_handler := handler } else s1
    let s3 := disable_pin_interrupt s2 port pin_num
    let s4 := { s3 with inputEn := updFun s3.inputEn port (setBit16 (s3.inputEn port) pin_num) }
    let s5 := { s4 with channel_ids := updTable s4.channel_ids port pin_num ⟨idArg, .IRQ_NONE, 0⟩ }
    (0, s5, { id := idArg, pinname := pin })

/-- `gpio_irq_enable`: no-op when the configured event is `IRQ_NONE`;
otherwise registers the callback and unmasks the pin on the line that
matches the configured edge, then sets `int_enable`. -/
def gpio_irq_enable (s : GpioState) (obj : gpio_irq_t) : GpioState :=
  let port := obj.pinname >>> GPIO_PORT_SHIFT
  let pin_num := obj.pinname &&& 0xFF
  if (s.channel_ids port pin_num).event = .IRQ_NONE then s
  else
    let s1 :=
      if (s.channel_ids port pin_num).event = .IRQ_RISE then
        enable_pin_interrupt { s with cbA := some obj } port pin_num .INTA
      else if (s.channel_ids port pin_num).event = .IRQ_FALL then
        enable_pin_interrupt { s with cbB := some obj } port pin_num .INTB
      else s
    { s1 with channel_ids := (updTable s1.channel_ids port pin_num
        { s1.channel_ids port pin_num with int_enable := 1 }) }

/-- `gpio_irq_disable`: no-op when the configured event is `IRQ_NONE`;
otherwise masks the pin on both lines and clears `int_enable`. -/
def gpio_irq_disable (s : GpioState) (obj : gpio_irq_t) : GpioState :=
  let port := obj.pinname >>> GPIO_PORT_SHIFT
  let pin_num := obj.pinname &&& 0xFF
  if (s.channel_ids port pin_num).event = .IRQ_NONE then s
  else
    let s1 :=
      if (s.channel_ids port pin_num).event = .IRQ_RISE then
        disable_pin_interrupt s port pin_num
      else if (s.channel_ids port pin_num).event = .IRQ_FALL then
        disable_pin_interrupt s port pin_num
      else s
    { s1 with channel_ids := (updTable s1.channel_ids port pin_num
        { s1.channel_ids port pin_num with int_enable := 0 }) }

/-- `gpio_irq_set`: early return on `IRQ_NONE`; otherwise updates the
polarity register, stores the event and enables or disables. -/
def gpio_irq_set (s : GpioState) (obj : gpio_irq_t) (event : gpio_irq_event)
    (enable : Nat) : GpioState :=
  let port := obj.pinname >>> GPIO_PORT_SHIFT
  let pin_num := obj.pinname &&& 0xFF
  if event = .IRQ_NONE then s
  else
    let pol1 := if event = .IRQ_RISE then setBit16 (s.polarity port) pin_num
      else clearBit16 (s.polarity port) pin_num
    let s1 := { s with polarity := updFun s.polarity port pol1 }
    let s2 := { s1 with channel_ids := (updTable s1.channel_ids port pin_num
        { s1.channel_ids port pin_num with event := event }) }
    if enable ≠ 0 then gpio_irq_enable s2 obj else gpio_irq_disable s2 obj

/-- `gpio_irq_free`: disable the pin, then clear the channel entry. -/
def gpio_irq_free (s : GpioState) (obj : gpio_irq_t) : GpioState :=
  let port := obj.pinname >>> GPIO_PORT_SHIFT
  let pin_num := obj.pinname &&& 0xFF
  let s1 := gpio_irq_disable s obj
  { s1 with channel_ids := updTable s1.channel_ids port pin_num ⟨0, .IRQ_NONE, 0⟩ }

/-- Ascending list of the set bit positions of `pin` below `width`. -/
def setBitPositions (width pin : Nat) : List Nat :=
  (List.range width).filter (fun i => pin.testBit i)

/-- Zeroed process-start state: the static arrays are zero-initialised
and `irq_handler` is `NULL`. -/
def gpioStart : GpioState :=
  { channel_ids := fun _ _ => ⟨0, .IRQ_NONE, 0⟩
    irq_handler := 0
    gpio_initialized := false
    polarity := fun _ => 0
    ienA := fun _ => 0
    ienB := fun _ => 0
    inputEn := fun _ => 0
    cbA := none
    cbB := none }

/-- A throwaway object value for instantiations. -/
def objStart : gpio_irq_t := ⟨0, 0⟩

/-! ## Binary32 model for the float arithmetic in `lp_ticker_api.c`

The C file computes the tick conversions in single-precision `float`.
The model below represents binary32 values as exact rationals and
rounds with round-to-nearest, ties-to-even at a 24-bit significand,
which is exact for the whole range the ticker exercises (no overflow,
no subnormals, nonnegative operands). -/

/-- Fuel-driven bit length: `bitlenF fuel n` is the number of binary
digits of `n`, provided `n ≤ fuel`. -/
def bitlenF : Nat → Nat → Nat
  | 0, _ => 0
  | fuel + 1, n => if n = 0 then 0 else bitlenF fuel (n / 2) + 1

/-- Number of binary digits of `n`. -/
def bitlen (n : Nat) : Nat := bitlenF n n

/-- Binary exponent of a positive rational: the unique `e` with
`2 ^ e ≤ q < 2 ^ (e + 1)`. -/
def flExp (q : ℚ) : ℤ :=
  if (2 : ℚ) ^ ((bitlen q.num.toNat : ℤ) - (bitlen q.den : ℤ)) ≤ q then
    (bitlen q.num.toNat : ℤ) - (bitlen q.den : ℤ)
  else (bitlen q.num.toNat : ℤ) - (bitlen q.den : ℤ) - 1

/-- Round to nearest integer, ties to even. -/
def rne (x : ℚ) : ℤ :=
  if x - ⌊x⌋ < 1 / 2 then ⌊x⌋
  else if 1 / 2 < x - ⌊x⌋ then ⌈x⌉
  else if ⌊x⌋ % 2 = 0 then ⌊x⌋ else ⌈x⌉

/-- Rounding a nonnegative rational to the nearest binary32 value:
scale into `[2 ^ 23, 2 ^ 24)`, round the significand to an integer,
scale back. -/
def fl32 (q : ℚ) : ℚ :=
  if q ≤ 0 then 0
  else (rne (q * 2 ^ ((23 : ℤ) - flExp q)) : ℚ) * 2 ^ (flExp q - 23)

def LFCLK_FREQUENCY_HZ : Nat := 32768

def RTC_PRESCALER : Nat := 0

/-- `TIME_US_PER_TICK = (float)1000000 / (float)(LFCLK_FREQUENCY_HZ >> RTC_PRESCALER)`;
both operands are exactly representable, the quotient is rounded. -/
def TIME_US_PER_TICK : ℚ :=
  fl32 ((1000000 : ℚ) / ((LFCLK_FREQUENCY_HZ >>> RTC_PRESCALER : Nat) : ℚ))

def TICKS_TO_ENABLE_ALARM : Nat := 50

/-- The alarm event bit of the external RTC driver
(`ADI_RTC_ALARM_INT`): the source only tests it as a mask against the
event word, so it is modelled as one fixed single-bit mask. -/
def ADI_RTC_ALARM_INT : Nat := 1

/-- `set_time = (uint32_t)((float)(timestamp) / TIME_US_PER_TICK)` from
`lp_ticker_set_interrupt`: cast to float, float division, truncation
toward zero. -/
def usToTicks (t : Nat) : Nat := (⌊fl32 (fl32 (t : ℚ) / TIME_US_PER_TICK)⌋).toNat

/-- The conversion in `lp_ticker_read`:
`count = (uint32_t)((float)count * TIME_US_PER_TICK)`. -/
def ticksToUs (c : Nat) : Nat := (⌊fl32 (fl32 (c : ℚ) * TIME_US_PER_TICK)⌋).toNat

/-- Observable actions of the alarm scheduler: the three
`adi_rtc_*` alarm calls and an invocation of `lp_ticker_irq_handler`. -/
inductive TickerOp where
  | enableInterrupts (flag : Bool)
  | setAlarm (count : Nat)
  | enableAlarm (flag : Bool)
  | irqHandler
  deriving DecidableEq

/-- `rtc1_Callback`: fire `lp_ticker_irq_handler` exactly when the alarm
bit is set in the delivered event word. -/
def rtc1_Callback (nEvent : Nat) : List TickerOp :=
  if ADI_RTC_ALARM_INT &&& nEvent ≠ 0 then [.irqHandler] else []

/-- Result of `lp_ticker_set_interrupt`: the emitted actions and the
index the next `adi_rtc_GetCount` read would use.  Counter reads are
modelled by an environment `env : Nat → Nat` giving the value returned
by the i-th `adi_rtc_GetCount` call. -/
structure SetIntResult where
  trace : List TickerOp
  nextRead : Nat
  deriving DecidableEq

/-- Exit read index of the `do { GetCount } while (rtcCount < set_time)`
loop: reads happen at indices 1, 2, ...; the loop exits at the first
read whose value reaches `set_time`.  The hypothesis states that the
counter eventually reaches the deadline, which is what makes the C loop
terminate. -/
def pollExit (env : Nat → Nat) (set_time : Nat) (h : ∃ j, set_time ≤ env (j + 1)) : Nat :=
  Nat.find h + 1

/-- `lp_ticker_set_interrupt`: compute the deadline tick value, read the
counter once, then either fire the handler immediately, busy-poll and
fire, or program the alarm comparator (with the two extra `GetCount`
reads `cnt0`, `cnt1` of the source accounted in `nextRead`). -/
def lp_ticker_set_interrupt (env : Nat → Nat) (timestamp : Nat)
    (h : ∃ j, usToTicks timestamp ≤ env (j + 1)) : SetIntResult :=
  if usToTicks timestamp ≤ env 0 then
    ⟨rtc1_Callback ADI_RTC_ALARM_INT, 1⟩
  else if usToTicks timestamp ≤ env 0 + TICKS_TO_ENABLE_ALARM then
    ⟨rtc1_Callback ADI_RTC_ALARM_INT, pollExit env (usToTicks timestamp) h + 1⟩
  else
    ⟨[.enableInterrupts true, .setAlarm (usToTicks timestamp), .enableAlarm true], 3⟩

/-- `lp_ticker_read` at read index `i`: get the count and convert to
microseconds. -/
def lp_ticker_read (env : Nat → Nat) (i : Nat) : Nat := ticksToUs (env i)

/-- Counter environment used for the margin-path instantiations: the
initial read returns 10, every later read returns 32. -/
def envMargin : Nat → Nat := fun i => if i = 0 then 10 else 32

/-- Constant counter environment. -/
def envConst (v : Nat) : Nat → Nat := fun _ => v

/-- Counter environment whose initial read is 0 and whose later reads
return a large count. -/
def envLate : Nat → Nat := fun i => if i = 0 then 0 else 1000000

/-- State with a registered process-wide handler, for instantiations. -/
def sHandler : GpioState := { gpioStart with irq_handler := 5 }

/-! ## Theorems -/

theorem gpio_irq_scan_handler_null (s : GpioState) (event : Nat) (h : s.irq_handler = 0) :
    ∀ pin index, gpio_irq_scan s event pin index = [] := by
  intro pin
  induction pin using Nat.strong_induction_on with
  | _ pin ih =>
    intro index
    rw [gpio_irq_scan]
    by_cases h0 : pin = 0
    · simp [h0]
    · have hlt : pin >>> 1 < pin := by
        rw [Nat.shiftRight_eq_div_pow]
        exact Nat.div_lt_self (Nat.pos_of_ne_zero h0) (by norm_num)
      simp [h0, h, ih _ hlt]

theorem gpio_irq_scan_spec (s : GpioState) (event : Nat) (hh : s.irq_handler ≠ 0) :
    ∀ (n : Nat), ∀ pin index, pin < 2 ^ n →
      gpio_irq_scan s event pin index =
        ((List.range n).filter (fun i => pin.testBit i)).map
          (fun i => ((s.channel_ids event (index + i)).id,
            (s.channel_ids event (index + i)).event)) := by
  intro n
  induction n with
  | zero =>
    intro pin index hpin
    have hz : pin = 0 := by omega
    subst hz
    rw [gpio_irq_scan]
    simp
  | succ n ih =>
    intro pin index hpin
    rw [gpio_irq_scan]
    by_cases h0 : pin = 0
    · subst h0
      simp [Nat.zero_testBit]
    · rw [dif_neg h0]
      have hdiv : pin >>> 1 < 2 ^ n := by
        rw [Nat.shiftRight_eq_div_pow]
        have hps : (2 : Nat) ^ (n + 1) = 2 ^ n * 2 := by ring
        rw [hps] at hpin
        omega
      rw [ih (pin >>> 1) (index + 1) hdiv]
      rw [List.range_succ_eq_map, List.filter_cons]
      have htb : (fun i => pin.testBit i) ∘ Nat.succ = fun i => (pin >>> 1).testBit i := by
        funext i
        simp [Function.comp, Nat.testBit_succ, Nat.shiftRight_one]
      rw [List.filter_map, htb]
      have hmap : List.map
          (fun i => ((s.channel_ids event (index + 1 + i)).id,
            (s.channel_ids event (index + 1 + i)).event))
          ((List.range n).filter (fun i => (pin >>> 1).testBit i)) =
          List.map ((fun i => ((s.channel_ids event (index + i)).id,
            (s.channel_ids event (index + i)).event)) ∘ Nat.succ)
          ((List.range n).filter (fun i => (pin >>> 1).testBit i)) := by
        apply List.map_congr_left
        intro i _
        have hval : index + 1 + i = index + (i + 1) := by omega
        simp [Function.comp, hval]
      rw [hmap]
      by_cases hb : pin % 2 = 1
      · rw [if_pos ⟨hb, hh⟩]
        have hbt : pin.testBit 0 = true := by
          rw [Nat.testBit_zero]
          simp [hb]
        rw [hbt]
        simp [List.map_map]
      · rw [if_neg (fun hc => hb hc.1)]
        have hbt : pin.testBit 0 = false := by
          rw [Nat.testBit_zero]
          simp [hb]
        rw [hbt]
        simp [List.map_map]

/-- C1: for every port group identifier and every 16-bit mask, the
demultiplexer produces, in ascending bit-position order, exactly one
handler invocation per set bit, carrying the id and event stored in the
channel table at (group, bit position); a null process-wide handler
yields the empty invocation list. -/
theorem gpio_irq_callback_dispatch (s : GpioState) (event pin : Nat) (hpin : pin < 2 ^ 16) :
    gpio_irq_callback s event pin =
      if s.irq_handler ≠ 0 then
        (setBitPositions 16 pin).map
          (fun i => ((s.channel_ids event i).id, (s.channel_ids event i).event))
      else [] := by
  by_cases hh : s.irq_handler = 0
  · simp [hh, gpio_irq_callback, gpio_irq_scan_handler_null s event hh]
  · rw [gpio_irq_callback, gpio_irq_scan_spec s event hh 16 pin 0 hpin]
    simp [setBitPositions, hh]

/-- Witness for C1 at a concrete state, group and mask. -/
theorem gpio_irq_callback_dispatch_witness :
    gpio_irq_callback sHandler 0 5 =
      if sHandler.irq_handler ≠ 0 then
        (setBitPositions 16 5).map
          (fun i => ((sHandler.channel_ids 0 i).id, (sHandler.channel_ids 0 i).event))
      else [] :=
  gpio_irq_callback_dispatch sHandler 0 5 (by norm_num)

theorem gpio_irq_scan_iters_le : ∀ (n : Nat) (pin : Nat), pin < 2 ^ n →
    gpio_irq_scan_iters pin ≤ n := by
  intro n
  induction n with
  | zero =>
    intro pin hpin
    have hz : pin = 0 := by omega
    subst hz
    rw [gpio_irq_scan_iters]
    simp
  | succ n ih =>
    intro pin hpin
    rw [gpio_irq_scan_iters]
    by_cases h0 : pin = 0
    · simp [h0]
    · rw [dif_neg h0]
      have hdiv : pin >>> 1 < 2 ^ n := by
        rw [Nat.shiftRight_eq_div_pow]
        have hps : (2 : Nat) ^ (n + 1) = 2 ^ n * 2 := by ring
        rw [hps] at hpin
        omega
      have := ih (pin >>> 1) hdiv
      omega

/-- C10: the `while (pin)` scan loop of `gpio_irq_callback` terminates
for every 16-bit mask: shifting right strictly decreases a nonzero
mask, and at most 16 iterations run. -/
theorem gpio_irq_scan_termination (pin : Nat) (hpin : pin < 2 ^ 16) :
    gpio_irq_scan_iters pin ≤ 16 ∧ (pin ≠ 0 → pin >>> 1 < pin) := by
  refine ⟨gpio_irq_scan_iters_le 16 pin hpin, fun h0 => ?_⟩
  rw [Nat.shiftRight_eq_div_pow]
  exact Nat.div_lt_self (Nat.pos_of_ne_zero h0) (by norm_num)

/-- Witness for C10 at the all-ones 16-bit mask. -/
theorem gpio_irq_scan_termination_witness :
    (65535 < 2 ^ 16)
    ∧ (gpio_irq_scan_iters 65535 ≤ 16 ∧ (65535 ≠ 0 → 65535 >>> 1 < 65535)) :=
  ⟨by norm_num, gpio_irq_scan_termination 65535 (by norm_num)⟩

/-- C5: `gpio_irq_init` fails (negative status) exactly when the pin is
`NC` or the id is 0; on failure neither the state nor the object
changes; on success the status is 0 and the channel entry of the
decoded (port, line) holds the id, `IRQ_NONE` and a cleared enable
flag. -/
theorem gpio_irq_init_status (s : GpioState) (obj : gpio_irq_t) (pin handler idArg : Nat) :
    ((gpio_irq_init s obj pin handler idArg).1 < 0 ↔ (pin = NC ∨ idArg = 0))
    ∧ ((pin = NC ∨ idArg = 0) → (gpio_irq_init s obj pin handler idArg).2 = (s, obj))
    ∧ (¬(pin = NC ∨ idArg = 0) →
        (gpio_irq_init s obj pin handler idArg).1 = 0
        ∧ (gpio_irq_init s obj pin handler idArg).2.1.channel_ids
            (pin >>> GPIO_PORT_SHIFT) (pin &&& 0xFF) = ⟨idArg, .IRQ_NONE, 0⟩) := by
  by_cases h : pin = NC ∨ idArg = 0
  · simp [gpio_irq_init, h]
  · by_cases hh : handler = 0 <;> by_cases hi : s.gpio_initialized <;>
      simp [gpio_irq_init, h, hh, hi, updTable, disable_pin_interrupt]

/-- Witness for C5: a successful initialization at a concrete input. -/
theorem gpio_irq_init_status_witness :
    (((gpio_irq_init sHandler objStart 4096 5 7).1 < 0 ↔ (4096 = NC ∨ 7 = 0))
    ∧ ((4096 = NC ∨ 7 = 0) → (gpio_irq_init sHandler objStart 4096 5 7).2 = (sHandler, objStart))
    ∧ (¬(4096 = NC ∨ 7 = 0) →
        (gpio_irq_init sHandler objStart 4096 5 7).1 = 0
        ∧ (gpio_irq_init sHandler objStart 4096 5 7).2.1.channel_ids
            (4096 >>> GPIO_PORT_SHIFT) (4096 &&& 0xFF) = ⟨7, .IRQ_NONE, 0⟩)) :=
  gpio_irq_init_status sHandler objStart 4096 5 7

/-- C6: calling `gpio_irq_set` with `IRQ_NONE` is a pure no-op: the
whole state, in particular the stored event, the enable flag, the
polarity register and the interrupt mask registers, is unchanged. -/
theorem gpio_irq_set_none (s : GpioState) (obj : gpio_irq_t) (enable : Nat) :
    gpio_irq_set s obj .IRQ_NONE enable = s := by
  simp [gpio_irq_set]

theorem gpio_irq_disable_channel_frame (s : GpioState) (obj : gpio_irq_t) (x y : Nat)
    (hxy : ¬(x = obj.pinname >>> GPIO_PORT_SHIFT ∧ y = obj.pinname &&& 0xFF)) :
    (gpio_irq_disable s obj).channel_ids x y = s.channel_ids x y := by
  rcases hev : (s.channel_ids (obj.pinname >>> GPIO_PORT_SHIFT)
      (obj.pinname &&& 0xFF)).event with _ | _ | _ <;>
    simp [gpio_irq_disable, hev, updTable, disable_pin_interrupt, hxy]

theorem gpio_irq_free_channel_ids (s : GpioState) (obj : gpio_irq_t) :
    (gpio_irq_free s obj).channel_ids =
      updTable s.channel_ids (obj.pinname >>> GPIO_PORT_SHIFT) (obj.pinname &&& 0xFF)
        ⟨0, .IRQ_NONE, 0⟩ := by
  funext x y
  by_cases hxy : x = obj.pinname >>> GPIO_PORT_SHIFT ∧ y = obj.pinname &&& 0xFF
  · obtain ⟨hx, hy⟩ := hxy
    subst hx
    subst hy
    simp [gpio_irq_free, updTable]
  · simp only [gpio_irq_free, updTable]
    rw [if_neg hxy, if_neg hxy]
    exact gpio_irq_disable_channel_frame s obj x y hxy

theorem gpio_irq_init_channel_ids (s : GpioState) (obj : gpio_irq_t) (pin handler idArg : Nat)
    (h : ¬(pin = NC ∨ idArg = 0)) :
    (gpio_irq_init s obj pin handler idArg).2.1.channel_ids =
      updTable s.channel_ids (pin >>> GPIO_PORT_SHIFT) (pin &&& 0xFF)
        ⟨idArg, .IRQ_NONE, 0⟩ := by
  by_cases hh : handler = 0 <;> by_cases hi : s.gpio_initialized <;>
    simp [gpio_irq_init, h, hh, hi, disable_pin_interrupt]

theorem updTable_updTable (f : Nat → Nat → gpio_chan_info_t) (p l : Nat)
    (a b : gpio_chan_info_t) :
    updTable (updTable f p l b) p l a = updTable f p l a := by
  funext x y
  by_cases hxy : x = p ∧ y = l <;> simp [updTable, hxy]

/-- C7: `gpio_irq_free` resets the channel entry of the pin to the
unused state, and a following `gpio_irq_init` on the same pin gives the
same channel table as initializing from a state whose entry for that
pin was never used. -/
theorem gpio_irq_free_then_init (s : GpioState) (obj objArg : gpio_irq_t)
    (handler idArg : Nat) (hpin : obj.pinname ≠ NC) (hid : idArg ≠ 0) :
    (gpio_irq_free s obj).channel_ids (obj.pinname >>> GPIO_PORT_SHIFT)
      (obj.pinname &&& 0xFF) = ⟨0, .IRQ_NONE, 0⟩
    ∧ (gpio_irq_init (gpio_irq_free s obj) objArg obj.pinname handler idArg).2.1.channel_ids
      = (gpio_irq_init
          { s with channel_ids := (updTable s.channel_ids
              (obj.pinname >>> GPIO_PORT_SHIFT) (obj.pinname &&& 0xFF) ⟨0, .IRQ_NONE, 0⟩) }
          objArg obj.pinname handler idArg).2.1.channel_ids := by
  have h : ¬(obj.pinname = NC ∨ idArg = 0) := by tauto
  constructor
  · rw [gpio_irq_free_channel_ids]
    simp [updTable]
  · rw [gpio_irq_init_channel_ids _ _ _ _ _ h, gpio_irq_init_channel_ids _ _ _ _ _ h]
    rw [gpio_irq_free_channel_ids]

/-- Witness for C7 at a concrete state and pin. -/
theorem gpio_irq_free_then_init_witness :
    ((gpio_irq_free sHandler ⟨3, 4096⟩).channel_ids
      ((4096 : Nat) >>> GPIO_PORT_SHIFT) ((4096 : Nat) &&& 0xFF) = ⟨0, .IRQ_NONE, 0⟩
    ∧ (gpio_irq_init (gpio_irq_free sHandler ⟨3, 4096⟩) objStart 4096 0 9).2.1.channel_ids
      = (gpio_irq_init
          { sHandler with channel_ids := (updTable sHandler.channel_ids
              ((4096 : Nat) >>> GPIO_PORT_SHIFT) ((4096 : Nat) &&& 0xFF) ⟨0, .IRQ_NONE, 0⟩) }
          objStart 4096 0 9).2.1.channel_ids) :=
  gpio_irq_free_then_init sHandler ⟨3, 4096⟩ objStart 0 9 (by decide) (by decide)

/-- C9: for a valid pin and id, a null handler argument leaves the
process-wide handler pointer unchanged, and a non-null handler argument
overwrites it. -/
theorem gpio_irq_init_handler_save (s : GpioState) (obj : gpio_irq_t)
    (pin handler idArg : Nat) (hpin : pin ≠ NC) (hid : idArg ≠ 0) :
    ((handler = 0 →
      (gpio_irq_init s obj pin handler idArg).2.1.irq_handler = s.irq_handler)
    ∧ (handler ≠ 0 →
      (gpio_irq_init s obj pin handler idArg).2.1.irq_handler = handler)) := by
  have h : ¬(pin = NC ∨ idArg = 0) := by tauto
  by_cases hh : handler = 0 <;> by_cases hi : s.gpio_initialized <;>
    simp [gpio_irq_init, h, hh, hi, disable_pin_interrupt]

/-- Witness for C9: a null handler argument on a state holding a
previously registered handler. -/
theorem gpio_irq_init_handler_save_witness :
    (((0 : Nat) = 0 →
      (gpio_irq_init sHandler objStart 4096 0 7).2.1.irq_handler = sHandler.irq_handler)
    ∧ ((0 : Nat) ≠ 0 →
      (gpio_irq_init sHandler objStart 4096 0 7).2.1.irq_handler = 0)) :=
  gpio_irq_init_handler_save sHandler objStart 4096 0 7 (by decide) (by decide)

/-! ### Support lemmas for the binary32 model -/

theorem bitlenF_zero (fuel : Nat) : bitlenF fuel 0 = 0 := by
  cases fuel <;> simp [bitlenF]

theorem bitlenF_spec : ∀ fuel n, n ≤ fuel → n ≠ 0 →
    n < 2 ^ bitlenF fuel n ∧ 2 ^ bitlenF fuel n ≤ 2 * n := by
  intro fuel
  induction fuel with
  | zero => intro n h1 h2; omega
  | succ fuel ih =>
    intro n h1 h2
    simp only [bitlenF, if_neg h2]
    by_cases hh : n / 2 = 0
    · have hn1 : n = 1 := by omega
      subst hn1
      rw [hh, bitlenF_zero]
      norm_num
    · have h3 : n / 2 ≤ fuel := by omega
      obtain ⟨u1, u2⟩ := ih (n / 2) h3 hh
      rw [pow_succ]
      omega

theorem bitlen_spec (n : Nat) (h : n ≠ 0) :
    n < 2 ^ bitlen n ∧ 2 ^ bitlen n ≤ 2 * n :=
  bitlenF_spec n n le_rfl h

theorem floor_le_rne (x : ℚ) : ⌊x⌋ ≤ rne x := by
  rw [rne]
  split_ifs <;> first | exact le_rfl | exact Int.floor_le_ceil x

theorem rne_le_ceil (x : ℚ) : rne x ≤ ⌈x⌉ := by
  rw [rne]
  split_ifs <;> first | exact le_rfl | exact Int.floor_le_ceil x

theorem rne_eq_floor (x : ℚ) (h : x - ⌊x⌋ < 1 / 2) : rne x = ⌊x⌋ := by
  rw [rne, if_pos h]

theorem rne_eq_ceil (x : ℚ) (h : 1 / 2 < x - ⌊x⌋) : rne x = ⌈x⌉ := by
  rw [rne, if_neg (by linarith), if_pos h]

theorem rne_intCast (n : ℤ) : rne ((n : ℤ) : ℚ) = n := by
  rw [rne_eq_floor, Int.floor_intCast]
  rw [Int.floor_intCast]
  norm_num

theorem qpow_natCast (n : ℕ) : (2 : ℚ) ^ ((n : ℤ)) = ((2 ^ n : ℕ) : ℚ) := by
  rw [zpow_natCast]
  push_cast
  ring

theorem rat_mul_den_eq_num (q : ℚ) : q * (q.den : ℚ) = (q.num : ℚ) := by
  have hd : ((q.den : ℚ)) ≠ 0 := by
    exact_mod_cast q.den_ne_zero
  calc q * (q.den : ℚ) = ((q.num : ℚ) / (q.den : ℚ)) * (q.den : ℚ) := by
        rw [Rat.num_div_den]
    _ = (q.num : ℚ) := div_mul_cancel₀ _ hd

theorem flExp_up (q : ℚ) (hq : 0 < q) :
    q < (2 : ℚ) ^ (((bitlen q.num.toNat : ℤ) - (bitlen q.den : ℤ)) + 1) := by
  have hnum : 0 < q.num := Rat.num_pos.mpr hq
  have ha0 : q.num.toNat ≠ 0 := by omega
  obtain ⟨ha1, _⟩ := bitlen_spec q.num.toNat ha0
  obtain ⟨_, hb2⟩ := bitlen_spec q.den q.den_ne_zero
  have hcastnum : ((q.num.toNat : ℕ) : ℚ) = (q.num : ℚ) := by
    exact_mod_cast congrArg (fun z : ℤ => (z : ℚ)) (Int.toNat_of_nonneg hnum.le)
  have hbpos : (0 : ℚ) < (2 : ℚ) ^ ((bitlen q.den : ℤ)) := zpow_pos (by norm_num) _
  rw [← mul_lt_mul_right hbpos, ← zpow_add₀ (by norm_num : (2:ℚ) ≠ 0)]
  have hexp : (bitlen q.num.toNat : ℤ) - (bitlen q.den : ℤ) + 1 + (bitlen q.den : ℤ)
      = ((bitlen q.num.toNat + 1 : ℕ) : ℤ) := by push_cast; ring
  rw [hexp, qpow_natCast, qpow_natCast]
  have step1 : q * ((2 ^ bitlen q.den : ℕ) : ℚ) ≤ q * ((2 * q.den : ℕ) : ℚ) := by
    apply mul_le_mul_of_nonneg_left _ hq.le
    exact_mod_cast hb2
  have step2 : q * ((2 * q.den : ℕ) : ℚ) = 2 * (q.num : ℚ) := by
    push_cast
    rw [show q * (2 * (q.den : ℚ)) = 2 * (q * (q.den : ℚ)) from by ring, rat_mul_den_eq_num]
  have step3 : 2 * (q.num : ℚ) < ((2 ^ (bitlen q.num.toNat + 1) : ℕ) : ℚ) := by
    rw [← hcastnum]
    push_cast
    rw [pow_succ]
    have : ((q.num.toNat : ℕ) : ℚ) < ((2 ^ bitlen q.num.toNat : ℕ) : ℚ) := by
      exact_mod_cast ha1
    push_cast at this
    linarith
  calc q * ((2 ^ bitlen q.den : ℕ) : ℚ)
      ≤ q * ((2 * q.den : ℕ) : ℚ) := step1
    _ = 2 * (q.num : ℚ) := step2
    _ < ((2 ^ (bitlen q.num.toNat + 1) : ℕ) : ℚ) := step3

theorem flExp_lo (q : ℚ) (hq : 0 < q) :
    (2 : ℚ) ^ (((bitlen q.num.toNat : ℤ) - (bitlen q.den : ℤ)) - 1) < q := by
  have hnum : 0 < q.num := Rat.num_pos.mpr hq
  have ha0 : q.num.toNat ≠ 0 := by omega
  obtain ⟨ha1, ha2⟩ := bitlen_spec q.num.toNat ha0
  obtain ⟨hb1, _⟩ := bitlen_spec q.den q.den_ne_zero
  have hcastnum : ((q.num.toNat : ℕ) : ℚ) = (q.num : ℚ) := by
    exact_mod_cast congrArg (fun z : ℤ => (z : ℚ)) (Int.toNat_of_nonneg hnum.le)
  have hbpos : (0 : ℚ) < (2 : ℚ) ^ ((bitlen q.den : ℤ)) := zpow_pos (by norm_num) _
  rw [← mul_lt_mul_right hbpos, ← zpow_add₀ (by norm_num : (2:ℚ) ≠ 0)]
  have hA1 : 1 ≤ bitlen q.num.toNat := by
    by_contra hcon
    have : bitlen q.num.toNat = 0 := by omega
    rw [this] at ha1
    omega
  have hexp : (bitlen q.num.toNat : ℤ) - (bitlen q.den : ℤ) - 1 + (bitlen q.den : ℤ)
      = ((bitlen q.num.toNat - 1 : ℕ) : ℤ) := by
    push_cast [hA1]
    ring
  rw [hexp, qpow_natCast, qpow_natCast]
  -- 2 ^ (A - 1) ≤ num  and  den < 2 ^ B  give  2 ^ (A - 1) < q * 2 ^ B
  have hnum_lb : ((2 ^ (bitlen q.num.toNat - 1) : ℕ) : ℚ) ≤ (q.num : ℚ) := by
    rw [← hcastnum]
    have : (2 ^ (bitlen q.num.toNat - 1) : ℕ) ≤ q.num.toNat := by
      have hp : 2 ^ bitlen q.num.toNat = 2 * 2 ^ (bitlen q.num.toNat - 1) := by
        rw [← pow_succ']
        congr 1
        omega
      omega
    exact_mod_cast this
  have hden_ub : (q.den : ℚ) < ((2 ^ bitlen q.den : ℕ) : ℚ) := by
    exact_mod_cast hb1
  have hstep : (q.num : ℚ) < q * ((2 ^ bitlen q.den : ℕ) : ℚ) := by
    rw [← rat_mul_den_eq_num q]
    exact mul_lt_mul_of_pos_left hden_ub hq
  linarith

theorem flExp_spec (q : ℚ) (hq : 0 < q) :
    (2 : ℚ) ^ flExp q ≤ q ∧ q < (2 : ℚ) ^ (flExp q + 1) := by
  rw [flExp]
  by_cases hc : (2 : ℚ) ^ ((bitlen q.num.toNat : ℤ) - (bitlen q.den : ℤ)) ≤ q
  · rw [if_pos hc]
    exact ⟨hc, flExp_up q hq⟩
  · rw [if_neg hc]
    constructor
    · exact (flExp_lo q hq).le
    · have hexp : (bitlen q.num.toNat : ℤ) - (bitlen q.den : ℤ) - 1 + 1
          = (bitlen q.num.toNat : ℤ) - (bitlen q.den : ℤ) := by ring
      rw [hexp]
      exact not_le.mp hc

theorem flExp_uniq (q : ℚ) (e : ℤ) (h1 : (2 : ℚ) ^ e ≤ q) (h2 : q < (2 : ℚ) ^ (e + 1)) :
    flExp q = e := by
  have hq : 0 < q := lt_of_lt_of_le (zpow_pos (by norm_num) e) h1
  obtain ⟨g1, g2⟩ := flExp_spec q hq
  by_contra hne
  rcases lt_or_gt_of_ne hne with hlt | hgt
  · have : (2 : ℚ) ^ (flExp q + 1) ≤ (2 : ℚ) ^ e :=
      zpow_le_zpow_right₀ (by norm_num) (by omega)
    linarith
  · have : (2 : ℚ) ^ (e + 1) ≤ (2 : ℚ) ^ flExp q :=
      zpow_le_zpow_right₀ (by norm_num) (by omega)
    linarith

theorem fl32_bounds (q : ℚ) (h1 : 1 ≤ q) (h24 : q < 2 ^ 24) :
    ((⌊q⌋ : ℚ) ≤ fl32 q) ∧ fl32 q ≤ ((⌈q⌉ : ℚ)) := by
  have hq : 0 < q := lt_of_lt_of_le one_pos h1
  obtain ⟨g1, g2⟩ := flExp_spec q hq
  have he0 : 0 ≤ flExp q := by
    by_contra hcon
    push_neg at hcon
    have hle : (2 : ℚ) ^ (flExp q + 1) ≤ (2 : ℚ) ^ ((0 : ℕ) : ℤ) :=
      zpow_le_zpow_right₀ (by norm_num) (by omega)
    rw [qpow_natCast] at hle
    norm_num at hle
    linarith
  have he23 : flExp q ≤ 23 := by
    by_contra hcon
    push_neg at hcon
    have hge : (2 : ℚ) ^ ((24 : ℕ) : ℤ) ≤ (2 : ℚ) ^ flExp q :=
      zpow_le_zpow_right₀ (by norm_num) (by omega)
    rw [qpow_natCast] at hge
    have h24' : ((2 ^ 24 : ℕ) : ℚ) = 2 ^ 24 := by push_cast; ring
    rw [h24'] at hge
    linarith
  set m : ℕ := ((23 : ℤ) - flExp q).toNat with hm
  have hm' : ((m : ℕ) : ℤ) = 23 - flExp q := Int.toNat_of_nonneg (by omega)
  have hp1 : (2 : ℚ) ^ ((23 : ℤ) - flExp q) = ((2 ^ m : ℕ) : ℚ) := by
    rw [← hm', qpow_natCast]
  have hp2 : (2 : ℚ) ^ (flExp q - (23 : ℤ)) = (((2 ^ m : ℕ) : ℚ))⁻¹ := by
    rw [show flExp q - (23 : ℤ) = -((23 : ℤ) - flExp q) from by ring, ← hm', zpow_neg,
      qpow_natCast]
  have hmpos : (0 : ℚ) < ((2 ^ m : ℕ) : ℚ) := by positivity
  rw [fl32, if_neg (not_le.mpr hq), hp1, hp2]
  have hnn : (0 : ℚ) ≤ (((2 ^ m : ℕ) : ℚ))⁻¹ := inv_nonneg.mpr hmpos.le
  constructor
  · have key : ⌊q⌋ * ((2 ^ m : ℕ) : ℤ) ≤ rne (q * ((2 ^ m : ℕ) : ℚ)) := by
      refine le_trans ?_ (floor_le_rne _)
      apply Int.le_floor.mpr
      push_cast
      exact mul_le_mul_of_nonneg_right (Int.floor_le q) (by positivity)
    have key' : ((⌊q⌋ : ℚ)) * ((2 ^ m : ℕ) : ℚ) ≤ ((rne (q * ((2 ^ m : ℕ) : ℚ)) : ℤ) : ℚ) := by
      exact_mod_cast key
    calc ((⌊q⌋ : ℚ)) = ((⌊q⌋ : ℚ)) * ((2 ^ m : ℕ) : ℚ) * (((2 ^ m : ℕ) : ℚ))⁻¹ := by
          field_simp
      _ ≤ ((rne (q * ((2 ^ m : ℕ) : ℚ)) : ℤ) : ℚ) * (((2 ^ m : ℕ) : ℚ))⁻¹ :=
          mul_le_mul_of_nonneg_right key' hnn
  · have key : rne (q * ((2 ^ m : ℕ) : ℚ)) ≤ ⌈q⌉ * ((2 ^ m : ℕ) : ℤ) := by
      refine le_trans (rne_le_ceil _) ?_
      apply Int.ceil_le.mpr
      push_cast
      exact mul_le_mul_of_nonneg_right (Int.le_ceil q) (by positivity)
    have key' : ((rne (q * ((2 ^ m : ℕ) : ℚ)) : ℤ) : ℚ) ≤ ((⌈q⌉ : ℚ)) * ((2 ^ m : ℕ) : ℚ) := by
      exact_mod_cast key
    calc ((rne (q * ((2 ^ m : ℕ) : ℚ)) : ℤ) : ℚ) * (((2 ^ m : ℕ) : ℚ))⁻¹
        ≤ ((⌈q⌉ : ℚ)) * ((2 ^ m : ℕ) : ℚ) * (((2 ^ m : ℕ) : ℚ))⁻¹ :=
          mul_le_mul_of_nonneg_right key' hnn
      _ = ((⌈q⌉ : ℚ)) := by field_simp

theorem fl32_natCast (n : Nat) (h : n < 2 ^ 24) : fl32 ((n : ℕ) : ℚ) = n := by
  rcases Nat.eq_zero_or_pos n with h0 | hpos
  · subst h0
    simp [fl32]
  · have h1 : (1 : ℚ) ≤ ((n : ℕ) : ℚ) := by exact_mod_cast hpos
    have h24 : ((n : ℕ) : ℚ) < 2 ^ 24 := by exact_mod_cast h
    obtain ⟨hlo, hhi⟩ := fl32_bounds _ h1 h24
    rw [Int.floor_natCast] at hlo
    rw [Int.ceil_natCast] at hhi
    push_cast at hlo hhi
    linarith

theorem fl32_eval (q : ℚ) (e : ℤ) (hqpos : 0 < q) (hlo : (2 : ℚ) ^ e ≤ q)
    (hhi : q < (2 : ℚ) ^ (e + 1)) :
    fl32 q = ((rne (q * 2 ^ ((23 : ℤ) - e)) : ℤ) : ℚ) * 2 ^ (e - 23) := by
  rw [fl32, if_neg (not_le.mpr hqpos), flExp_uniq q e hlo hhi]

theorem TIME_US_PER_TICK_eq : TIME_US_PER_TICK = 15625 / 512 := by
  have harg : ((1000000 : ℚ) / ((LFCLK_FREQUENCY_HZ >>> RTC_PRESCALER : Nat) : ℚ))
      = 15625 / 512 := by
    norm_num [LFCLK_FREQUENCY_HZ, RTC_PRESCALER]
  rw [TIME_US_PER_TICK, harg]
  rw [fl32_eval _ 4 (by norm_num) (by norm_num) (by norm_num)]
  have hs : ((15625 : ℚ) / 512 * 2 ^ ((23 : ℤ) - 4)) = ((16000000 : ℤ) : ℚ) := by
    norm_num
  rw [hs, rne_intCast]
  norm_num

theorem usToTicks_1000 : usToTicks 1000 = 32 := by
  rw [usToTicks, fl32_natCast 1000 (by norm_num), TIME_US_PER_TICK_eq]
  have hq : (((1000 : ℕ) : ℚ)) / (15625 / 512) = 512000 / 15625 := by norm_num
  rw [hq, fl32_eval _ 5 (by norm_num) (by norm_num) (by norm_num)]
  have harg : ((512000 : ℚ) / 15625 * 2 ^ ((23 : ℤ) - 5)) = 134217728000 / 15625 := by
    norm_num
  rw [harg]
  have hfloor : ⌊(134217728000 / 15625 : ℚ)⌋ = 8589934 := by norm_num
  have hr : rne (134217728000 / 15625 : ℚ) = 8589935 := by
    rw [rne_eq_ceil]
    · rw [Int.ceil_eq_iff]
      constructor <;> norm_num
    · rw [hfloor]
      norm_num
  rw [hr]
  have hv : ((8589935 : ℤ) : ℚ) * 2 ^ ((5 : ℤ) - 23) = 8589935 / 262144 := by
    norm_num
  rw [hv]
  have : ⌊(8589935 / 262144 : ℚ)⌋ = 32 := by norm_num
  rw [this]
  rfl

theorem ticksToUs_32 : ticksToUs 32 = 976 := by
  rw [ticksToUs, fl32_natCast 32 (by norm_num), TIME_US_PER_TICK_eq]
  have hq : (((32 : ℕ) : ℚ)) * (15625 / 512) = 15625 / 16 := by norm_num
  rw [hq, fl32_eval _ 9 (by norm_num) (by norm_num) (by norm_num)]
  have harg : ((15625 : ℚ) / 16 * 2 ^ ((23 : ℤ) - 9)) = ((16000000 : ℤ) : ℚ) := by
    norm_num
  rw [harg, rne_intCast]
  have hv : ((16000000 : ℤ) : ℚ) * 2 ^ ((9 : ℤ) - 23) = 15625 / 16 := by
    norm_num
  rw [hv]
  have : ⌊(15625 / 16 : ℚ)⌋ = 976 := by norm_num
  rw [this]
  rfl

theorem usToTicks_9552 : usToTicks 9552 = 312 := by
  rw [usToTicks, fl32_natCast 9552 (by norm_num), TIME_US_PER_TICK_eq]
  have hq : (((9552 : ℕ) : ℚ)) / (15625 / 512) = 4890624 / 15625 := by norm_num
  rw [hq, fl32_eval _ 8 (by norm_num) (by norm_num) (by norm_num)]
  have harg : ((4890624 : ℚ) / 15625 * 2 ^ ((23 : ℤ) - 8)) = 160255967232 / 15625 := by
    norm_num
  rw [harg]
  have hfloor : ⌊(160255967232 / 15625 : ℚ)⌋ = 10256381 := by norm_num
  have hr : rne (160255967232 / 15625 : ℚ) = 10256382 := by
    rw [rne_eq_ceil]
    · rw [Int.ceil_eq_iff]
      constructor <;> norm_num
    · rw [hfloor]
      norm_num
  rw [hr]
  have hv : ((10256382 : ℤ) : ℚ) * 2 ^ ((8 : ℤ) - 23) = 5128191 / 16384 := by
    norm_num
  rw [hv]
  have : ⌊(5128191 / 16384 : ℚ)⌋ = 312 := by norm_num
  rw [this]
  rfl

theorem ticksToUs_312 : ticksToUs 312 = 9521 := by
  rw [ticksToUs, fl32_natCast 312 (by norm_num), TIME_US_PER_TICK_eq]
  have hq : (((312 : ℕ) : ℚ)) * (15625 / 512) = 609375 / 64 := by norm_num
  rw [hq, fl32_eval _ 13 (by norm_num) (by norm_num) (by norm_num)]
  have harg : ((609375 : ℚ) / 64 * 2 ^ ((23 : ℤ) - 13)) = ((9750000 : ℤ) : ℚ) := by
    norm_num
  rw [harg, rne_intCast]
  have hv : ((9750000 : ℤ) : ℚ) * 2 ^ ((13 : ℤ) - 23) = 609375 / 64 := by
    norm_num
  rw [hv]
  have : ⌊(609375 / 64 : ℚ)⌋ = 9521 := by norm_num
  rw [this]
  rfl

theorem usToTicks_bounds (t : Nat) (ht : 31 ≤ t) (ht24 : t < 2 ^ 24) :
    ⌊((t : ℕ) : ℚ) * 512 / 15625⌋ ≤ ((usToTicks t : ℕ) : ℤ)
    ∧ ((usToTicks t : ℕ) : ℤ) ≤ ⌈((t : ℕ) : ℚ) * 512 / 15625⌉
    ∧ 1 ≤ usToTicks t := by
  have hdiv : (((t : ℕ) : ℚ)) / TIME_US_PER_TICK = ((t : ℕ) : ℚ) * 512 / 15625 := by
    rw [TIME_US_PER_TICK_eq, div_div_eq_mul_div]
  set q : ℚ := ((t : ℕ) : ℚ) * 512 / 15625 with hqdef
  have htq : (31 : ℚ) ≤ ((t : ℕ) : ℚ) := by exact_mod_cast ht
  have htq24 : (((t : ℕ) : ℚ)) < 2 ^ 24 := by exact_mod_cast ht24
  have hq1 : 1 ≤ q := by
    rw [hqdef, le_div_iff (by norm_num)]
    linarith
  have hq24 : q < 2 ^ 24 := by
    rw [hqdef, div_lt_iff (by norm_num)]
    linarith
  obtain ⟨hlo, hhi⟩ := fl32_bounds q hq1 hq24
  have hfl : ⌊q⌋ ≤ ⌊fl32 q⌋ := Int.le_floor.mpr hlo
  have hfh : ⌊fl32 q⌋ ≤ ⌈q⌉ := by
    have hmono := Int.floor_mono hhi
    rw [Int.floor_intCast] at hmono
    exact hmono
  have h1le : 1 ≤ ⌊q⌋ := Int.le_floor.mpr (by exact_mod_cast hq1)
  have hnn : 0 ≤ ⌊fl32 q⌋ := by omega
  rw [usToTicks, fl32_natCast t ht24, hdiv]
  rw [Int.toNat_of_nonneg hnn]
  exact ⟨hfl, hfh, by omega⟩

theorem ticksToUs_bounds (c : Nat) (hc1 : 1 ≤ c) (hc2 : c ≤ 549755) :
    ⌊((c : ℕ) : ℚ) * 15625 / 512⌋ ≤ ((ticksToUs c : ℕ) : ℤ)
    ∧ ((ticksToUs c : ℕ) : ℤ) ≤ ⌈((c : ℕ) : ℚ) * 15625 / 512⌉ := by
  have hmul : (((c : ℕ) : ℚ)) * TIME_US_PER_TICK = ((c : ℕ) : ℚ) * 15625 / 512 := by
    rw [TIME_US_PER_TICK_eq]
    ring
  set v : ℚ := ((c : ℕ) : ℚ) * 15625 / 512 with hvdef
  have hcq : (1 : ℚ) ≤ ((c : ℕ) : ℚ) := by exact_mod_cast hc1
  have hcq2 : (((c : ℕ) : ℚ)) ≤ 549755 := by exact_mod_cast hc2
  have hv1 : 1 ≤ v := by
    rw [hvdef, le_div_iff (by norm_num)]
    linarith
  have hv24 : v < 2 ^ 24 := by
    rw [hvdef, div_lt_iff (by norm_num)]
    linarith
  have hc24 : c < 2 ^ 24 := by omega
  obtain ⟨hlo, hhi⟩ := fl32_bounds v hv1 hv24
  have hfl : ⌊v⌋ ≤ ⌊fl32 v⌋ := Int.le_floor.mpr hlo
  have hfh : ⌊fl32 v⌋ ≤ ⌈v⌉ := by
    have hmono := Int.floor_mono hhi
    rw [Int.floor_intCast] at hmono
    exact hmono
  have h1le : 1 ≤ ⌊v⌋ := Int.le_floor.mpr (by exact_mod_cast hv1)
  have hnn : 0 ≤ ⌊fl32 v⌋ := by omega
  rw [ticksToUs, fl32_natCast c hc24, hmul]
  rw [Int.toNat_of_nonneg hnn]
  exact ⟨hfl, hfh⟩

theorem usToTicks_le_549755 (t : Nat) (ht : 31 ≤ t) (ht24 : t + 31 < 2 ^ 24) :
    usToTicks t ≤ 549755 := by
  obtain ⟨_, hu2, _⟩ := usToTicks_bounds t ht (by omega)
  have hceil : ⌈((t : ℕ) : ℚ) * 512 / 15625⌉ ≤ 549755 := by
    apply Int.ceil_le.mpr
    rw [div_le_iff (by norm_num)]
    have htle : t ≤ 16777184 := by omega
    have htq : (((t : ℕ) : ℚ)) ≤ 16777184 := by exact_mod_cast htle
    push_cast
    linarith
  have : ((usToTicks t : ℕ) : ℤ) ≤ 549755 := le_trans hu2 hceil
  exact_mod_cast this

theorem ticksToUs_read_lower (t c : Nat) (ht : 31 ≤ t) (ht24 : t + 31 < 2 ^ 24)
    (hc : usToTicks t ≤ c) (hc549 : c ≤ 549755) : t ≤ ticksToUs c + 31 := by
  obtain ⟨hu1, _, hu3⟩ := usToTicks_bounds t ht (by omega)
  obtain ⟨hv1, _⟩ := ticksToUs_bounds c (le_trans hu3 hc) hc549
  have f1 : ((t : ℕ) : ℚ) * 512 / 15625 - 1 < ((usToTicks t : ℕ) : ℚ) := by
    have hf := Int.sub_one_lt_floor (((t : ℕ) : ℚ) * 512 / 15625)
    have hcast : ((⌊((t : ℕ) : ℚ) * 512 / 15625⌋ : ℤ) : ℚ) ≤ ((usToTicks t : ℕ) : ℚ) := by
      exact_mod_cast hu1
    linarith
  have f2 : ((c : ℕ) : ℚ) * 15625 / 512 - 1 < ((ticksToUs c : ℕ) : ℚ) := by
    have hf := Int.sub_one_lt_floor (((c : ℕ) : ℚ) * 15625 / 512)
    have hcast : ((⌊((c : ℕ) : ℚ) * 15625 / 512⌋ : ℤ) : ℚ) ≤ ((ticksToUs c : ℕ) : ℚ) := by
      exact_mod_cast hv1
    linarith
  have f3 : ((usToTicks t : ℕ) : ℚ) ≤ ((c : ℕ) : ℚ) := by exact_mod_cast hc
  have final : ((t : ℕ) : ℚ) < ((ticksToUs c : ℕ) : ℚ) + 32 := by linarith
  have hlt : (t : ℕ) < ticksToUs c + 32 := by exact_mod_cast final
  omega

theorem ticksToUs_roundtrip_upper (t : Nat) (ht : 31 ≤ t) (ht24 : t + 31 < 2 ^ 24) :
    ticksToUs (usToTicks t) ≤ t + 31 := by
  obtain ⟨_, hu2, hu3⟩ := usToTicks_bounds t ht (by omega)
  obtain ⟨_, hv2⟩ := ticksToUs_bounds (usToTicks t) hu3 (usToTicks_le_549755 t ht ht24)
  have f1 : ((usToTicks t : ℕ) : ℚ) < ((t : ℕ) : ℚ) * 512 / 15625 + 1 := by
    have hf := Int.ceil_lt_add_one (((t : ℕ) : ℚ) * 512 / 15625)
    have hcast : ((usToTicks t : ℕ) : ℚ) ≤ ((⌈((t : ℕ) : ℚ) * 512 / 15625⌉ : ℤ) : ℚ) := by
      exact_mod_cast hu2
    linarith
  have f2 : ((ticksToUs (usToTicks t) : ℕ) : ℚ)
      < ((usToTicks t : ℕ) : ℚ) * 15625 / 512 + 1 := by
    have hf := Int.ceil_lt_add_one (((usToTicks t : ℕ) : ℚ) * 15625 / 512)
    have hcast : ((ticksToUs (usToTicks t) : ℕ) : ℚ)
        ≤ ((⌈((usToTicks t : ℕ) : ℚ) * 15625 / 512⌉ : ℤ) : ℚ) := by
      exact_mod_cast hv2
    linarith
  have final : ((ticksToUs (usToTicks t) : ℕ) : ℚ) < ((t : ℕ) : ℚ) + 32 := by linarith
  have hlt : ticksToUs (usToTicks t) < t + 32 := by exact_mod_cast final
  omega

/-- C3: a deadline whose tick value is at or below the freshly read
counter makes `lp_ticker_set_interrupt` invoke the expiration handler
synchronously exactly once and return after the single counter read,
emitting no alarm-programming action. -/
theorem lp_ticker_set_interrupt_elapsed (env : Nat → Nat) (t : Nat)
    (h : ∃ j, usToTicks t ≤ env (j + 1)) (helap : usToTicks t ≤ env 0) :
    lp_ticker_set_interrupt env t h = ⟨[.irqHandler], 1⟩ := by
  rw [lp_ticker_set_interrupt, if_pos helap]
  rfl

theorem envC3_h : ∃ j, usToTicks 1000 ≤ envConst 100 (j + 1) :=
  ⟨0, by simp [usToTicks_1000, envConst]⟩

/-- Witness for C3 at a concrete environment and timestamp. -/
theorem lp_ticker_set_interrupt_elapsed_witness :
    usToTicks 1000 ≤ envConst 100 0
    ∧ lp_ticker_set_interrupt (envConst 100) 1000 envC3_h = ⟨[.irqHandler], 1⟩ :=
  ⟨by simp [usToTicks_1000, envConst],
    lp_ticker_set_interrupt_elapsed (envConst 100) 1000 envC3_h
      (by simp [usToTicks_1000, envConst])⟩

/-- C4: a deadline beyond the safety margin makes
`lp_ticker_set_interrupt` return without invoking the handler, after
unmasking the alarm interrupt, programming the comparator with the
deadline tick value and enabling the alarm; and `rtc1_Callback` fires
the handler exactly once per event word with the alarm bit set and
never otherwise, whatever the other bits are. -/
theorem lp_ticker_set_interrupt_future (env : Nat → Nat) (t : Nat)
    (h : ∃ j, usToTicks t ≤ env (j + 1))
    (hfut : env 0 + TICKS_TO_ENABLE_ALARM < usToTicks t) :
    lp_ticker_set_interrupt env t h =
      ⟨[.enableInterrupts true, .setAlarm (usToTicks t), .enableAlarm true], 3⟩
    ∧ TickerOp.irqHandler ∉ (lp_ticker_set_interrupt env t h).trace
    ∧ (∀ nEvent : Nat,
        (ADI_RTC_ALARM_INT &&& nEvent ≠ 0 → rtc1_Callback nEvent = [.irqHandler])
        ∧ (ADI_RTC_ALARM_INT &&& nEvent = 0 → rtc1_Callback nEvent = [])) := by
  have h1 : env 0 < usToTicks t := lt_of_le_of_lt (Nat.le_add_right _ _) hfut
  have h2 : ¬(usToTicks t ≤ env 0 + TICKS_TO_ENABLE_ALARM) := not_le.mpr hfut
  rw [lp_ticker_set_interrupt, if_neg (not_le.mpr h1), if_neg h2]
  refine ⟨rfl, by simp, ?_⟩
  intro nEvent
  constructor <;> intro hbit <;> simp [rtc1_Callback, hbit]

theorem envC4_h : ∃ j, usToTicks 9552 ≤ envLate (j + 1) :=
  ⟨0, by simp [usToTicks_9552, envLate]⟩

/-- Witness for C4 at a concrete environment and timestamp. -/
theorem lp_ticker_set_interrupt_future_witness :
    envLate 0 + TICKS_TO_ENABLE_ALARM < usToTicks 9552
    ∧ (lp_ticker_set_interrupt envLate 9552 envC4_h =
        ⟨[.enableInterrupts true, .setAlarm (usToTicks 9552), .enableAlarm true], 3⟩
      ∧ TickerOp.irqHandler ∉ (lp_ticker_set_interrupt envLate 9552 envC4_h).trace
      ∧ (∀ nEvent : Nat,
          (ADI_RTC_ALARM_INT &&& nEvent ≠ 0 → rtc1_Callback nEvent = [.irqHandler])
          ∧ (ADI_RTC_ALARM_INT &&& nEvent = 0 → rtc1_Callback nEvent = []))) :=
  ⟨by simp [usToTicks_9552, envLate, TICKS_TO_ENABLE_ALARM],
    lp_ticker_set_interrupt_future envLate 9552 envC4_h
      (by simp [usToTicks_9552, envLate, TICKS_TO_ENABLE_ALARM])⟩

/-- C2 (amended): for a deadline strictly above the current count but
within the 50-tick safety margin, `lp_ticker_set_interrupt` busy-polls
the counter until it reaches the deadline tick value (all earlier poll
reads are below it), invokes the expiration handler exactly once before
returning, and a `lp_ticker_read` performed afterwards returns at least
the requested deadline minus 31 microseconds (one tick-duration rounded
up to a whole microsecond); the original claim asks for at least the
deadline itself, which the truncating unit conversion does not give. -/
theorem lp_ticker_set_interrupt_margin (env : Nat → Nat) (t : Nat)
    (h : ∃ j, usToTicks t ≤ env (j + 1))
    (h1 : env 0 < usToTicks t)
    (h2 : usToTicks t ≤ env 0 + TICKS_TO_ENABLE_ALARM)
    (hmono : ∀ i j : Nat, i ≤ j → env i ≤ env j)
    (ht : 31 ≤ t) (ht24 : t + 31 < 2 ^ 24)
    (hread : env ((lp_ticker_set_interrupt env t h).nextRead) ≤ 549755) :
    (lp_ticker_set_interrupt env t h).trace = [.irqHandler]
    ∧ usToTicks t ≤ env ((lp_ticker_set_interrupt env t h).nextRead - 1)
    ∧ (∀ i, 1 ≤ i → i < (lp_ticker_set_interrupt env t h).nextRead - 1 →
        env i < usToTicks t)
    ∧ t ≤ lp_ticker_read env ((lp_ticker_set_interrupt env t h).nextRead) + 31 := by
  have hrn : (lp_ticker_set_interrupt env t h).nextRead = Nat.find h + 2 := by
    rw [lp_ticker_set_interrupt, if_neg (not_le.mpr h1), if_pos h2]
    rfl
  have hrt : (lp_ticker_set_interrupt env t h).trace = [.irqHandler] := by
    rw [lp_ticker_set_interrupt, if_neg (not_le.mpr h1), if_pos h2]
    rfl
  refine ⟨hrt, ?_, ?_, ?_⟩
  · rw [hrn]
    have hidx : Nat.find h + 2 - 1 = Nat.find h + 1 := by omega
    rw [hidx]
    exact Nat.find_spec h
  · intro i hi1 hi2
    rw [hrn] at hi2
    have hlt : i - 1 < Nat.find h := by omega
    have hmin := Nat.find_min h hlt
    have hidx : i - 1 + 1 = i := by omega
    rw [hidx] at hmin
    omega
  · rw [lp_ticker_read]
    apply ticksToUs_read_lower t _ ht ht24
    · rw [hrn]
      exact le_trans (Nat.find_spec h) (hmono (Nat.find h + 1) (Nat.find h + 2) (by omega))
    · exact hread

theorem envC2_h : ∃ j, usToTicks 1000 ≤ envMargin (j + 1) :=
  ⟨0, by simp [usToTicks_1000, envMargin]⟩

theorem envMargin_mono : ∀ i j : Nat, i ≤ j → envMargin i ≤ envMargin j := by
  intro i j hij
  by_cases hi : i = 0
  · by_cases hj : j = 0 <;> simp [envMargin, hi, hj]
  · have hj : j ≠ 0 := by omega
    simp [envMargin, hi, hj]

/-- Witness for the amended C2 at a concrete environment and timestamp. -/
theorem lp_ticker_set_interrupt_margin_witness :
    (envMargin 0 < usToTicks 1000
      ∧ usToTicks 1000 ≤ envMargin 0 + TICKS_TO_ENABLE_ALARM
      ∧ 31 ≤ 1000 ∧ 1000 + 31 < 2 ^ 24)
    ∧ ((lp_ticker_set_interrupt envMargin 1000 envC2_h).trace = [.irqHandler]
      ∧ usToTicks 1000 ≤
          envMargin ((lp_ticker_set_interrupt envMargin 1000 envC2_h).nextRead - 1)
      ∧ (∀ i, 1 ≤ i →
          i < (lp_ticker_set_interrupt envMargin 1000 envC2_h).nextRead - 1 →
          envMargin i < usToTicks 1000)
      ∧ 1000 ≤ lp_ticker_read envMargin
          ((lp_ticker_set_interrupt envMargin 1000 envC2_h).nextRead) + 31) :=
  ⟨⟨by simp [usToTicks_1000, envMargin],
    by simp [usToTicks_1000, envMargin, TICKS_TO_ENABLE_ALARM],
    by decide, by decide⟩,
    lp_ticker_set_interrupt_margin envMargin 1000 envC2_h
      (by simp [usToTicks_1000, envMargin])
      (by simp [usToTicks_1000, envMargin, TICKS_TO_ENABLE_ALARM])
      envMargin_mono (by decide) (by decide)
      (by by_cases hk : (lp_ticker_set_interrupt envMargin 1000 envC2_h).nextRead = 0 <;>
        simp [envMargin, hk])⟩

/-- Counterexample to C2 as stated: with the counter at 10 ticks and a
1000 us deadline (32 ticks, within the margin), the handler fires once,
but the `lp_ticker_read` performed right after the call returns 976 us,
less than the requested 1000 us. -/
theorem lp_ticker_margin_read_low :
    (envMargin 0 < usToTicks 1000
      ∧ usToTicks 1000 ≤ envMargin 0 + TICKS_TO_ENABLE_ALARM)
    ∧ (lp_ticker_set_interrupt envMargin 1000 envC2_h).trace = [.irqHandler]
    ∧ lp_ticker_read envMargin
        ((lp_ticker_set_interrupt envMargin 1000 envC2_h).nextRead) < 1000 := by
  have hfind : Nat.find envC2_h = 0 := by
    rw [Nat.find_eq_zero]
    simp [usToTicks_1000, envMargin]
  have hr : lp_ticker_set_interrupt envMargin 1000 envC2_h = ⟨[.irqHandler], 2⟩ := by
    rw [lp_ticker_set_interrupt, if_neg, if_pos]
    · simp only [pollExit, hfind]
      rfl
    · simp [usToTicks_1000, envMargin, TICKS_TO_ENABLE_ALARM]
    · simp [usToTicks_1000, envMargin]
  refine ⟨⟨by simp [usToTicks_1000, envMargin],
    by simp [usToTicks_1000, envMargin, TICKS_TO_ENABLE_ALARM]⟩, by rw [hr], ?_⟩
  rw [hr, lp_ticker_read]
  have henv : envMargin 2 = 32 := rfl
  rw [henv, ticksToUs_32]
  norm_num

/-- C8 (amended): the microseconds-to-ticks-to-microseconds round trip
stays within 31 us (one tick-duration rounded up to a whole
microsecond) of the original timestamp, for timestamps at least 31 us
and below 2 ^ 24 - 31 us; the original claim of at most one exact
tick-duration (15625/512 us) is not met, and binary32 rounding can also
push the round trip slightly above the original. -/
theorem usToTicks_ticksToUs_roundtrip (t : Nat) (ht : 31 ≤ t) (ht24 : t + 31 < 2 ^ 24) :
    t ≤ ticksToUs (usToTicks t) + 31 ∧ ticksToUs (usToTicks t) ≤ t + 31 := by
  constructor
  · exact ticksToUs_read_lower t (usToTicks t) ht ht24 le_rfl
      (usToTicks_le_549755 t ht ht24)
  · exact ticksToUs_roundtrip_upper t ht ht24

/-- Witness for the amended C8 at a concrete timestamp. -/
theorem usToTicks_ticksToUs_roundtrip_witness :
    (31 ≤ 1000 ∧ 1000 + 31 < 2 ^ 24)
    ∧ (1000 ≤ ticksToUs (usToTicks 1000) + 31
      ∧ ticksToUs (usToTicks 1000) ≤ 1000 + 31) :=
  ⟨⟨by decide, by decide⟩,
    usToTicks_ticksToUs_roundtrip 1000 (by decide) (by decide)⟩

/-- Counterexample to C8 as stated: at 9552 us the round trip gives
9521 us, and the 31 us gap exceeds the tick-duration 15625/512 us. -/
theorem roundtrip_gap_9552 :
    usToTicks 9552 = 312 ∧ ticksToUs (usToTicks 9552) = 9521
    ∧ ¬((9552 : ℚ) - ((ticksToUs (usToTicks 9552) : ℕ) : ℚ) ≤ TIME_US_PER_TICK) := by
  refine ⟨usToTicks_9552, ?_, ?_⟩
  · rw [usToTicks_9552, ticksToUs_312]
  · rw [usToTicks_9552, ticksToUs_312, TIME_US_PER_TICK_eq]
    norm_num
